import Mathlib

/-
Verification of the resilient inference orchestration core of the
multimodal visual inspection API.

The Python source is shallowly embedded: pure functions become Lean
functions, Python floats become rationals, fallible code returns
Except/Option, and the external JSON decoder (the json module) is
embedded as a strict JSON parser over the same grammar.
-/

set_option maxRecDepth 4000

namespace VIA

/-- JSON values as produced by the Python json module after decoding.
Numbers are modelled as rationals (NaN/Infinity literals, which the
Python decoder also accepts, are outside this model and are never used
by the claims). Objects are ordered key-value lists with unique keys,
matching dict semantics. -/
inductive Json where
  | null : Json
  | bool : Bool → Json
  | num : ℚ → Json
  | str : String → Json
  | arr : List Json → Json
  | obj : List (String × Json) → Json

/-- Lookup of a key in a decoded JSON object, i.e. Python dict.get
(objects decoded from JSON have unique keys, so first match is the
match). -/
def objGet : List (String × Json) → String → Option Json
  | [], _ => none
  | p :: ps, k => if p.1 == k then some p.2 else objGet ps k

/-- Python truthiness of a decoded JSON value. -/
def jsonTruthy : Json → Bool
  | Json.null => false
  | Json.bool b => b
  | Json.num q => q != 0
  | Json.str s => s != ""
  | Json.arr xs => !xs.isEmpty
  | Json.obj kvs => !kvs.isEmpty

/-- Whitespace characters skipped by the JSON grammar. -/
def isJsonWs (c : Char) : Bool :=
  c = ' ' || c = '\n' || c = '\t' || c = '\r'

/-- Drop leading JSON whitespace. -/
def skipWs : List Char → List Char
  | [] => []
  | c :: cs => if isJsonWs c then skipWs cs else c :: cs

/-- Take a maximal run of decimal digits, returning their values. -/
def takeDigits : List Char → List Nat × List Char
  | [] => ([], [])
  | c :: cs =>
    if c.isDigit then
      let r := takeDigits cs
      ((c.toNat - 48) :: r.1, r.2)
    else ([], c :: cs)

/-- Decimal digits to a natural number. -/
def digitsToNat (ds : List Nat) : Nat :=
  ds.foldl (fun a d => a * 10 + d) 0

/-- Exponent digits with optional sign, for the JSON number grammar. -/
def parseExpDigits (cs : List Char) : Option (Int × List Char) :=
  let p : Int × List Char :=
    match cs with
    | '+' :: r => (1, r)
    | '-' :: r => (-1, r)
    | r => (1, r)
  let d := takeDigits p.2
  if d.1.isEmpty then none else some (p.1 * (digitsToNat d.1 : Int), d.2)

/-- Optional exponent part of a JSON number. -/
def parseExpPart : List Char → Option (Int × List Char)
  | 'e' :: rest => parseExpDigits rest
  | 'E' :: rest => parseExpDigits rest
  | cs => some (0, cs)

/-- Optional fractional part of a JSON number. -/
def parseFracPart : List Char → Option (ℚ × List Char)
  | '.' :: rest =>
    let d := takeDigits rest
    if d.1.isEmpty then none
    else some ((digitsToNat d.1 : ℚ) / ((10 : ℚ) ^ d.1.length), d.2)
  | cs => some (0, cs)

/-- Apply a decimal exponent to a rational. -/
def applyExp (q : ℚ) (e : Int) : ℚ :=
  if 0 ≤ e then q * (10 : ℚ) ^ e.toNat else q / (10 : ℚ) ^ (-e).toNat

/-- JSON number grammar: optional minus, integer part without leading
zeros, optional fraction, optional exponent. -/
def parseNumber (cs : List Char) : Option (ℚ × List Char) :=
  let sgn : Bool × List Char :=
    match cs with
    | '-' :: r => (true, r)
    | r => (false, r)
  let d := takeDigits sgn.2
  if d.1.isEmpty then none
  else if d.1.length > 1 && d.1.headD 0 == 0 then none
  else
    match parseFracPart d.2 with
    | none => none
    | some (fq, cs3) =>
      match parseExpPart cs3 with
      | none => none
      | some (e, cs4) =>
        let v := applyExp ((digitsToNat d.1 : ℚ) + fq) e
        some (if sgn.1 then -v else v, cs4)

/-- Value of a hexadecimal digit. -/
def hexVal (c : Char) : Option Nat :=
  if c.isDigit then some (c.toNat - 48)
  else if 'a' ≤ c ∧ c ≤ 'f' then some (c.toNat - 87)
  else if 'A' ≤ c ∧ c ≤ 'F' then some (c.toNat - 55)
  else none

/-- Single-character escapes of the JSON string grammar. -/
def escChar : Char → Option Char
  | '"' => some '"'
  | '\\' => some '\\'
  | '/' => some '/'
  | 'b' => some (Char.ofNat 8)
  | 'f' => some (Char.ofNat 12)
  | 'n' => some '\n'
  | 'r' => some '\r'
  | 't' => some '\t'
  | _ => none

/-- Body of a JSON string after the opening quote: characters until the
closing quote, with escapes; raw control characters are rejected as in
the strict Python decoder. -/
def parseStrChars : List Char → Option (List Char × List Char)
  | [] => none
  | '"' :: rest => some ([], rest)
  | '\\' :: 'u' :: a :: b :: c :: d :: rest =>
    (match hexVal a, hexVal b, hexVal c, hexVal d with
     | some ha, some hb, some hc, some hd =>
       match parseStrChars rest with
       | some (s, r) => some (Char.ofNat (((ha * 16 + hb) * 16 + hc) * 16 + hd) :: s, r)
       | none => none
     | _, _, _, _ => none)
  | '\\' :: e :: rest =>
    (match escChar e with
     | some c =>
       match parseStrChars rest with
       | some (s, r) => some (c :: s, r)
       | none => none
     | none => none)
  | c :: rest =>
    if c.toNat < 32 then none
    else
      match parseStrChars rest with
      | some (s, r) => some (c :: s, r)
      | none => none

/-- Insert a parsed object member in front of the later members,
with Python dict duplicate-key semantics: the earlier occurrence keeps
its position but a later occurrence keeps its value. -/
def objAdd (k : String) (v : Json) (kvs : List (String × Json)) : List (String × Json) :=
  match objGet kvs k with
  | some v0 => (k, v0) :: kvs.filter (fun p => p.1 != k)
  | none => (k, v) :: kvs

mutual

/-- JSON value parser (fuel-indexed). -/
def parseVal : Nat → List Char → Option (Json × List Char)
  | 0, _ => none
  | Nat.succ fuel, cs =>
    match skipWs cs with
    | 'n' :: 'u' :: 'l' :: 'l' :: r => some (Json.null, r)
    | 't' :: 'r' :: 'u' :: 'e' :: r => some (Json.bool true, r)
    | 'f' :: 'a' :: 'l' :: 's' :: 'e' :: r => some (Json.bool false, r)
    | '"' :: r =>
      (match parseStrChars r with
       | some (s, r2) => some (Json.str (String.mk s), r2)
       | none => none)
    | '[' :: r =>
      (match skipWs r with
       | ']' :: r2 => some (Json.arr [], r2)
       | _ =>
         match parseElems fuel r with
         | some (xs, r2) => some (Json.arr xs, r2)
         | none => none)
    | '{' :: r =>
      (match skipWs r with
       | '}' :: r2 => some (Json.obj [], r2)
       | _ =>
         match parseMembers fuel r with
         | some (kvs, r2) => some (Json.obj kvs, r2)
         | none => none)
    | cs1 =>
      match parseNumber cs1 with
      | some (q, r) => some (Json.num q, r)
      | none => none

/-- JSON array elements parser (fuel-indexed). -/
def parseElems : Nat → List Char → Option (List Json × List Char)
  | 0, _ => none
  | Nat.succ fuel, cs =>
    match parseVal fuel cs with
    | none => none
    | some (v, r) =>
      match skipWs r with
      | ',' :: r2 =>
        (match parseElems fuel r2 with
         | some (vs, r3) => some (v :: vs, r3)
         | none => none)
      | ']' :: r2 => some ([v], r2)
      | _ => none

/-- JSON object members parser (fuel-indexed). -/
def parseMembers : Nat → List Char → Option (List (String × Json) × List Char)
  | 0, _ => none
  | Nat.succ fuel, cs =>
    match skipWs cs with
    | '"' :: r =>
      (match parseStrChars r with
       | none => none
       | some (k, r1) =>
         match skipWs r1 with
         | ':' :: r2 =>
           (match parseVal fuel r2 with
            | none => none
            | some (v, r3) =>
              match skipWs r3 with
              | ',' :: r4 =>
                (match parseMembers fuel r4 with
                 | some (kvs, r5) => some (objAdd (String.mk k) v kvs, r5)
                 | none => none)
              | '}' :: r4 => some ([(String.mk k, v)], r4)
              | _ => none)
         | _ => none)
    | _ => none

end

/-- Embedding of json.loads: strict parse of the whole text (modulo
surrounding whitespace); any violation of the grammar yields none,
modelling the raised JSONDecodeError. -/
def jsonParse (s : String) : Option Json :=
  match parseVal (2 * s.length + 2) s.toList with
  | some (j, rest) => if (skipWs rest).isEmpty then some j else none
  | none => none

/-
Data model, from app/analyzers/document_analyzer.py. Python float is
modelled as the rational numbers; the level annotation, a plain string
at runtime in Python, is an optional string.
-/

/-- Normalized confidence container (document_analyzer.Confidence),
without the construction-time range check, which is modelled
separately by mkConfidence. -/
structure Confidence where
  score : Option ℚ
  level : Option String
deriving DecidableEq

/-- Construction of a Confidence: the dataclass runs a validation that
raises ValueError when a present score lies outside the unit interval
(Confidence post-init check). -/
def mkConfidence (score : Option ℚ) (level : Option String) : Except String Confidence :=
  match score with
  | some q =>
    if 0 ≤ q ∧ q ≤ 1 then Except.ok ⟨some q, level⟩
    else Except.error "Confidence.score must be in [0, 1]."
  | none => Except.ok ⟨none, level⟩

/-- One extracted key/value pair (ExtractedField). -/
structure ExtractedField where
  name : String
  value : Option String
  confidence : Option Confidence
deriving DecidableEq

/-- A single table cell (TableCell). -/
structure TableCell where
  row : Int
  col : Int
  text : String
  confidence : Option Confidence
deriving DecidableEq

/-- A normalized table (ExtractedTable). -/
structure ExtractedTable where
  table_index : Int
  n_rows : Int
  n_cols : Int
  cells : List TableCell
  confidence : Option Confidence
deriving DecidableEq

/-- Extraction result for a single page image (PageExtraction).
engine_meta is a string-keyed map with heterogeneous values, modelled
as a JSON object body. -/
structure PageExtraction where
  page_index : Nat
  fields : List ExtractedField
  tables : List ExtractedTable
  page_confidence : Option Confidence
  warnings : List String
  engine_meta : List (String × Json)

/-- Document-level extraction output (DocumentExtractionResult). -/
structure DocumentExtractionResult where
  pages : List PageExtraction
  doc_confidence : Option Confidence
  warnings : List String
  engine_meta : List (String × Json)

/-
Document pipeline, from app/pipelines/document_pipeline.py.
-/

/-- Rank table of the qualitative levels used by the document-level
aggregation; unknown strings default to rank 0 as with dict.get. -/
def levelRank (lv : String) : Nat :=
  if lv = "low" then 0 else if lv = "medium" then 1 else if lv = "high" then 2 else 0

/-- Python min over a nonempty list keyed by levelRank: the first
element with the smallest rank is kept. -/
def pyMinByRank (x : String) (xs : List String) : String :=
  xs.foldl (fun acc y => if levelRank y < levelRank acc then y else acc) x

/-- Document-level confidence policy (document_pipeline
aggregate_doc_confidence). The Confidence constructions go through
mkConfidence, so a raised ValueError propagates as an error. -/
def aggregate_doc_confidence (pages : List PageExtraction) : Except String (Option Confidence) :=
  let scores := pages.filterMap (fun p => p.page_confidence.bind (fun c => c.score))
  let levels := pages.filterMap (fun p => p.page_confidence.bind (fun c => c.level))
  if scores = [] then
    match levels with
    | [] => Except.ok none
    | l :: ls =>
      match mkConfidence none (some (pyMinByRank l ls)) with
      | Except.ok c => Except.ok (some c)
      | Except.error e => Except.error e
  else
    match mkConfidence (some (scores.sum / (scores.length : ℚ))) none with
    | Except.ok c => Except.ok (some c)
    | Except.error e => Except.error e

/-- A raised Python exception, as observed by an except handler: its
class name and its message. -/
structure ExcInfo where
  clsName : String
  msg : String
deriving DecidableEq

/-- The classification string of an exception as the pipeline formats
it. -/
def excText (e : ExcInfo) : String := e.clsName ++ ": " ++ e.msg

/-- The degraded PageExtraction the pipeline substitutes when the
analyzer raises. -/
def degradedPage (i : Nat) (mode : String) (e : ExcInfo) : PageExtraction :=
  { page_index := i
    fields := []
    tables := []
    page_confidence := none
    warnings := ["Analyzer exception: " ++ excText e]
    engine_meta := [("name", Json.str "unknown"), ("mode", Json.str mode)] }

/-- A document analyzer: analyze_page takes the page image, page
index, mode and context and either returns a PageExtraction or raises.
The page image type is opaque to the orchestration. -/
def Analyzer (Img : Type) : Type :=
  Img → Nat → String → List (String × Json) → Except ExcInfo PageExtraction

/-- One iteration body of the page loop: the analyzer call with the
total-catch converting a raised exception into the degraded page. -/
def pageStep {Img : Type} (analyzer : Analyzer Img) (mode : String)
    (ctx : List (String × Json)) (i : Nat) (img : Img) : PageExtraction :=
  match analyzer img i mode ctx with
  | Except.ok r => r
  | Except.error e => degradedPage i mode e

/-- The page loop of run_document_pipeline: one result per page in
order, analyzer exceptions replaced by the degraded page, and the
page warnings copied to the document warning list under the
page-index prefix. -/
def pipelineLoop {Img : Type} (analyzer : Analyzer Img) (mode : String)
    (ctx : List (String × Json)) :
    Nat → List Img → List PageExtraction × List String
  | _, [] => ([], [])
  | i, img :: rest =>
    let r := pageStep analyzer mode ctx i img
    let tail := pipelineLoop analyzer mode ctx (i + 1) rest
    (r :: tail.1, r.warnings.map (fun w => "page[" ++ toString i ++ "]: " ++ w) ++ tail.2)

/-- Input contract of the document pipeline (DocumentPipelineInput
together with the preprocessed document metadata the pipeline
reads). -/
structure DocumentPipelineInput (Img : Type) where
  pages : List Img
  file_type : String
  mode : String
  context : Option (List (String × Json))

/-- Orchestration of the document pipeline (run_document_pipeline). -/
def run_document_pipeline {Img : Type} (analyzer : Analyzer Img)
    (inp : DocumentPipelineInput Img) : Except String DocumentExtractionResult :=
  let ctx := inp.context.getD []
  let pr := pipelineLoop analyzer inp.mode ctx 0 inp.pages
  match aggregate_doc_confidence pr.1 with
  | Except.error e => Except.error e
  | Except.ok doc_confidence =>
    Except.ok
      { pages := pr.1
        doc_confidence := doc_confidence
        warnings := pr.2
        engine_meta :=
          [("pipeline", Json.str "document"), ("mode", Json.str inp.mode),
           ("pages_processed", Json.num (pr.1.length : ℚ)),
           ("input_file_type", Json.str inp.file_type)] }

/-
Confidence-to-number conversion, from app/api/routes_document.py.
-/

/-- Numeric projection of an optional Confidence
(routes_document confidence_to_number). -/
def confidence_to_number (c : Option Confidence) : ℚ :=
  match c with
  | none => 0
  | some c =>
    match c.score with
    | some q => q
    | none =>
      if c.level = some "high" then 85 / 100
      else if c.level = some "medium" then 60 / 100
      else if c.level = some "low" then 30 / 100
      else 0

/-
Contract validation of the document extraction shape, from
app/analyzers/vlm_document_analyzer.py.
-/

/-- The empty extraction dictionary returned on parse failures. -/
def emptyExtractionObj : Json :=
  Json.obj
    [("fields", Json.arr []), ("tables", Json.arr []),
     ("page_confidence", Json.null), ("warnings", Json.arr [])]

/-- dict.setdefault: insert the default at the end when the key is
missing. -/
def setdefaultKV (kvs : List (String × Json)) (k : String) (v : Json) :
    List (String × Json) :=
  if (objGet kvs k).isSome then kvs else kvs ++ [(k, v)]

/-- The four top-level setdefault calls of safe_parse_json. -/
def safeParseDefaults (kvs : List (String × Json)) : List (String × Json) :=
  setdefaultKV
    (setdefaultKV
      (setdefaultKV
        (setdefaultKV kvs "fields" (Json.arr []))
        "tables" (Json.arr []))
      "page_confidence" Json.null)
    "warnings" (Json.arr [])

/-- Robust parse of the model output (safe_parse_json): empty or
non-string input (modelled by none or the empty string), undecodable
text and non-object values each yield the empty structure plus one
distinct warning; on success the four top-level keys are defaulted. -/
def safe_parse_json (text : Option String) : Json × List String :=
  match text with
  | none => (emptyExtractionObj, ["Empty model output."])
  | some s =>
    if s = "" then (emptyExtractionObj, ["Empty model output."])
    else
      match jsonParse s with
      | none => (emptyExtractionObj, ["Model output is not valid JSON; using empty extraction."])
      | some (Json.obj kvs) => (Json.obj (safeParseDefaults kvs), [])
      | some _ => (emptyExtractionObj, ["Model output JSON is not an object; using empty extraction."])

/-- Python float applied to a decoded JSON value: exact on numbers and
booleans; the conversion of other values (numeric strings parse, other
values raise, modelled by none) is an opaque stdlib behaviour supplied
as a parameter. -/
def pyFloat (conv : Json → Option ℚ) : Json → Option ℚ
  | Json.num q => some q
  | Json.bool b => some (if b then 1 else 0)
  | v => conv v

/-- Python str applied to a decoded JSON value: the identity on
strings; the rendering of other values is an opaque stdlib behaviour
supplied as a parameter. -/
def pyStrOf (conv : Json → String) : Json → String
  | Json.str s => s
  | v => conv v

/-- The score_f computation of normalize_confidence: None stays
absent, other values go through float with the exception caught. -/
def scoreOfRaw (toF : Json → Option ℚ) : Json → Option ℚ
  | Json.null => none
  | v => pyFloat toF v

/-- The level_s computation of normalize_confidence: None stays
absent, other values go through str. -/
def levelOfRaw (toS : Json → String) : Json → Option String
  | Json.null => none
  | v => some (pyStrOf toS v)

/-- The level whitelist of normalize_confidence: anything but the
three known names becomes absent. -/
def filterLevel : Option String → Option String
  | some s => if s = "low" ∨ s = "medium" ∨ s = "high" then some s else none
  | none => none

/-- Normalization of a raw confidence value
(vlm_document_analyzer normalize_confidence): tolerant of wrong types,
discarding an unusable score and an unrecognized level instead of
failing; the except branch around the Confidence construction is the
match on mkConfidence. -/
def normalize_confidence (toF : Json → Option ℚ) (toS : Json → String) (raw : Json) :
    Option Confidence :=
  match raw with
  | Json.null => none
  | Json.obj kvs =>
    let score_f := scoreOfRaw toF ((objGet kvs "score").getD Json.null)
    let level_v := filterLevel (levelOfRaw toS ((objGet kvs "level").getD Json.null))
    match mkConfidence score_f level_v with
    | Except.ok c => some c
    | Except.error _ => some { score := none, level := level_v }
  | _ => none

/-
Image pipeline retry runner, from app/pipelines/image_pipeline.py.
-/

/-- Input of one VLM invocation (VLMInput). -/
structure VLMInput where
  prompt : String
  task : Option String
  question : Option String
deriving DecidableEq

/-- Prompt tightening applied between retries (tighten_prompt). -/
def tighten_prompt (v : VLMInput) : VLMInput :=
  let extra := "IMPORTANT: Return ONLY valid JSON. No markdown. No extra text."
  let base := v.prompt.trim
  let newPrompt := if base = "" then extra else (base ++ "\n\n" ++ extra).trim
  { prompt := newPrompt, task := v.task, question := v.question }

/-- Outcome of one wrapped VLM call (run_with_timeout around
vlm.analyze): success with a duration, VLMTimeout, VLMInvalidOutput,
or any other exception. -/
inductive VLMOutcome (R : Type) where
  | ok (r : R) (duration : ℚ)
  | timeout (msg : String)
  | invalid (msg : String)
  | failed (msg : String)

/-- An HTTPException detail as raised by the pipeline. -/
structure HTTPErrorDetail where
  status : Nat
  code : String
  message : String
deriving DecidableEq

/-- The retry loop of run_vlm_with_retries. The backend behaviour is a
function of the attempt index and the input of that attempt. The
returned list records, per attempt in order, the input passed to the
call and the result label emitted to the request counter
(ok / timeout / invalid_output / failed). -/
def vlmRetryLoop {R : Type} (call : Nat → VLMInput → VLMOutcome R) :
    VLMInput → Nat → Nat →
    List (VLMInput × String) × Except HTTPErrorDetail (R × Nat × ℚ)
  | inp, attempt, 0 =>
    (match call attempt inp with
     | VLMOutcome.ok r d => ([(inp, "ok")], Except.ok (r, attempt + 1, d))
     | VLMOutcome.timeout m => ([(inp, "timeout")], Except.error ⟨504, "timeout", m⟩)
     | VLMOutcome.invalid m => ([(inp, "invalid_output")], Except.error ⟨502, "invalid_vlm_output", m⟩)
     | VLMOutcome.failed m => ([(inp, "failed")], Except.error ⟨502, "vlm_failed", m⟩))
  | inp, attempt, Nat.succ rem =>
    (match call attempt inp with
     | VLMOutcome.ok r d => ([(inp, "ok")], Except.ok (r, attempt + 1, d))
     | VLMOutcome.timeout m => ([(inp, "timeout")], Except.error ⟨504, "timeout", m⟩)
     | VLMOutcome.invalid _ =>
       let t := vlmRetryLoop call (tighten_prompt inp) (attempt + 1) rem
       ((inp, "invalid_output") :: t.1, t.2)
     | VLMOutcome.failed m => ([(inp, "failed")], Except.error ⟨502, "vlm_failed", m⟩))

/-- run_vlm_with_retries with the configured retry budget: attempts
range over 0 .. retries, so max_attempts = retries + 1. -/
def run_vlm_with_retries {R : Type} (call : Nat → VLMInput → VLMOutcome R)
    (retries : Nat) (inp : VLMInput) :
    List (VLMInput × String) × Except HTTPErrorDetail (R × Nat × ℚ) :=
  vlmRetryLoop call inp 0 retries

/-
Text-LLM retry wrapper, from app/llm/llm_client.py.
-/

/-- A failure of the inner text-LLM client: LLMTimeoutError,
LLMDownstreamError, or any other exception (with its class name). -/
inductive LLMFail where
  | timeout (msg : String)
  | downstream (msg : String)
  | other (clsName : String) (msg : String)

/-- The failure surfaced by RetryingLLMClient.generate after
exhaustion; the assertion failure covers the max_attempts = 0
configuration where the loop body never runs. -/
inductive LLMErrOut where
  | timeoutErr (msg : String)
  | downstreamErr (msg : String)
  | assertionError
deriving DecidableEq

/-- Result of the inner client (LLMResult without the wrapper
fields; wall-clock latency is environment-determined and not
modelled). -/
structure LLMInnerResult where
  raw_text : String
  model_id : String
  meta : List (String × Json)

/-- Result of the retry wrapper, with the overall attempt count. -/
structure LLMResult where
  raw_text : String
  model_id : String
  attempts : Nat
  meta : List (String × Json)

/-- Python dict merge for the meta update: an existing key keeps its
position but takes the new value; a new key is appended. -/
def metaSet (kvs : List (String × Json)) (k : String) (v : Json) :
    List (String × Json) :=
  if (objGet kvs k).isSome then kvs.map (fun p => if p.1 == k then (k, v) else p)
  else kvs ++ [(k, v)]

/-- Conversion applied to the failure kept as last_err: unknown
exceptions become downstream errors with the class name prefixed. -/
def llmConvert : LLMFail → LLMErrOut
  | LLMFail.timeout m => LLMErrOut.timeoutErr m
  | LLMFail.downstream m => LLMErrOut.downstreamErr m
  | LLMFail.other cls m => LLMErrOut.downstreamErr (cls ++ ": " ++ m)

/-- The attempt loop of RetryingLLMClient.generate: every failure kind
(timeout included) is retried while attempts remain; after the last
attempt the last failure is raised. The backoff sleep is a real-time
effect with no influence on the outcome and is not modelled. -/
def llmRetryLoop (inner : Nat → Except LLMFail LLMInnerResult) :
    Nat → Nat → Except LLMErrOut LLMResult
  | attempt, rest =>
    match inner attempt with
    | Except.ok res =>
      Except.ok
        { raw_text := res.raw_text, model_id := res.model_id, attempts := attempt,
          meta := metaSet res.meta "retry_wrapper" (Json.bool true) }
    | Except.error e =>
      match rest with
      | 0 => Except.error (llmConvert e)
      | Nat.succ r => llmRetryLoop inner (attempt + 1) r

/-- RetryingLLMClient.generate over a retry policy with the given
max_attempts; attempts are numbered from 1 as in the source. -/
def retrying_generate (inner : Nat → Except LLMFail LLMInnerResult)
    (maxAttempts : Nat) : Except LLMErrOut LLMResult :=
  match maxAttempts with
  | 0 => Except.error LLMErrOut.assertionError
  | Nat.succ n => llmRetryLoop inner 1 n

/-
Grounded explanation generator, from app/explainers/grounded_explainer.py.
-/

/-- The exact key set required of the explanation payload. -/
def REQUIRED_KEYS : List String :=
  ["explanation", "recommendation", "risk_level", "assumptions", "limitations"]

/-- Raw LLM output parse on the grounded-explanation path
(parse_llm_json): a direct strict decode of the whole text, with no
attempt to repair or to extract a substring. -/
def parse_llm_json (text : String) : Option Json := jsonParse text

/-- Schema validation of the parsed explanation (validate_schema):
exact key set, enumerated risk_level, list-typed assumptions and
limitations. -/
def validate_schema (j : Json) : Bool :=
  match j with
  | Json.obj kvs =>
    ((kvs.map Prod.fst).all (fun k => REQUIRED_KEYS.contains k) &&
     REQUIRED_KEYS.all (fun k => (kvs.map Prod.fst).contains k)) &&
    (match objGet kvs "risk_level" with
     | some (Json.str s) => s == "low" || s == "medium" || s == "high"
     | _ => false) &&
    (match objGet kvs "assumptions" with
     | some (Json.arr _) => true
     | _ => false) &&
    (match objGet kvs "limitations" with
     | some (Json.arr _) => true
     | _ => false)
  | _ => false

/-- Truthiness of facts.get("warnings") or [] as used by the fallback. -/
def factsWarningsTruthy (facts : List (String × Json)) : Bool :=
  match objGet facts "warnings" with
  | some w => jsonTruthy w
  | none => false

/-- The conservative fallback payload (fallback_explanation). -/
def fallback_explanation (reason : String) (facts : List (String × Json)) : Json :=
  let hasW := factsWarningsTruthy facts
  let risk := if hasW then "high" else "medium"
  let limitations : List Json :=
    (if hasW then [Json.str "The analysis contains warnings that reduce confidence."] else []) ++
      [Json.str reason]
  Json.obj
    [("explanation", Json.str "A detailed explanation could not be generated reliably from the available analysis results."),
     ("recommendation", Json.str "Review the extracted results manually and verify low-confidence items. If issues persist, re-upload higher-quality inputs."),
     ("risk_level", Json.str risk),
     ("assumptions", Json.arr []),
     ("limitations", Json.arr limitations)]

/-- generate_grounded_explanation, abstracted over the outcome of the
single llm.generate call: an exception (carrying its class name) or
the raw response text. Prompt construction does not influence the
validation path and is elided. -/
def generate_grounded_explanation (llmOutcome : Except String String)
    (facts : List (String × Json)) : Json :=
  match llmOutcome with
  | Except.error ename => fallback_explanation ("LLM error: " ++ ename) facts
  | Except.ok raw =>
    match parse_llm_json raw with
    | none => fallback_explanation "Invalid JSON returned by LLM" facts
    | some parsed =>
      if validate_schema parsed then parsed
      else fallback_explanation "LLM JSON missing required keys" facts

/-
JSON-substring extraction of the image-VLM parsing path, from
app/analyzers/vlm_parsing.py.
-/

/-- Index of the first character satisfying the predicate. -/
def firstIdx (p : Char → Bool) : List Char → Option Nat
  | [] => none
  | c :: cs => if p c then some 0 else (firstIdx p cs).map (fun i => i + 1)

/-- Index of the last character satisfying the predicate. -/
def findLastIdx (p : Char → Bool) (cs : List Char) : Option Nat :=
  match firstIdx p cs.reverse with
  | some k => some (cs.length - 1 - k)
  | none => none

/-- extract_json_object: the greedy dot-all search for a braced
substring, i.e. the span from the first opening brace to the last
closing brace when the first strictly precedes the last. -/
def extract_json_object (s : String) : Option String :=
  if s = "" then none
  else
    let cs := s.toList
    match firstIdx (fun c => c == '{') cs, findLastIdx (fun c => c == '}') cs with
    | some i, some j =>
      if i < j then some (String.mk ((cs.drop i).take (j - i + 1))) else none
    | _, _ => none

/-- Modelled from the spec: the parse behaviour the spec describes for
the grounded-explanation path, in which the first top-level JSON
object substring is located before JSON-decoding. Used only to compare
against parse_llm_json, which decodes the whole text directly. -/
def parse_llm_json_asSpecified (text : String) : Option Json :=
  (extract_json_object text).bind jsonParse

/-
Helper lemmas.
-/

theorem filterLevel_valid (x : Option String) (l : String)
    (h : filterLevel x = some l) : l = "low" ∨ l = "medium" ∨ l = "high" := by
  cases x with
  | none => simp [filterLevel] at h
  | some s =>
    simp only [filterLevel] at h
    split at h
    · cases h
      assumption
    · cases h

theorem filterLevel_of_valid (l : String)
    (h : l = "low" ∨ l = "medium" ∨ l = "high") :
    filterLevel (some l) = some l := by
  simp only [filterLevel, if_pos h]

theorem filterLevel_of_invalid (l : String)
    (h : ¬ (l = "low" ∨ l = "medium" ∨ l = "high")) :
    filterLevel (some l) = none := by
  simp only [filterLevel, if_neg h]

theorem mkConfidence_ok_inv (s : Option ℚ) (l : Option String) (c : Confidence)
    (h : mkConfidence s l = Except.ok c) :
    c.level = l ∧ ∀ q, c.score = some q → 0 ≤ q ∧ q ≤ 1 := by
  cases s with
  | none =>
    cases h
    exact ⟨rfl, fun q hq => by cases hq⟩
  | some q =>
    simp only [mkConfidence] at h
    split at h
    · cases h
      refine ⟨rfl, fun q' hq' => ?_⟩
      cases hq'
      assumption
    · cases h

theorem mkConfidence_none_ok (l : Option String) :
    mkConfidence none l = Except.ok ⟨none, l⟩ := rfl

theorem scoreOfRaw_of_ne_null (toF : Json → Option ℚ) (v : Json) (h : v ≠ Json.null) :
    scoreOfRaw toF v = pyFloat toF v := by
  cases v <;> first | exact absurd rfl h | rfl

/-
C9.
-/

/-- C9: confidence_to_number returns the score when a numeric score is
present; otherwise 0.85, 0.60 or 0.30 when the level is high, medium
or low respectively; otherwise (both absent, or the confidence absent
entirely) 0. -/
theorem confidence_to_number_spec :
    (∀ (q : ℚ) (lvl : Option String), confidence_to_number (some ⟨some q, lvl⟩) = q) ∧
    confidence_to_number (some ⟨none, some "high"⟩) = 85 / 100 ∧
    confidence_to_number (some ⟨none, some "medium"⟩) = 60 / 100 ∧
    confidence_to_number (some ⟨none, some "low"⟩) = 30 / 100 ∧
    confidence_to_number (some ⟨none, none⟩) = 0 ∧
    confidence_to_number none = 0 :=
  ⟨fun _ _ => rfl, rfl, rfl, rfl, rfl, rfl⟩

/-
C10.
-/

/-- C10: confidence normalization never fails, and every Confidence it
produces satisfies the construction invariant: a present score lies in
the unit interval and a present level is one of the three level names.
An out-of-range score is silently discarded while a valid accompanying
level is kept, and an unrecognized level string becomes absent. The
stdlib conversions float and str are abstracted by toF and toS. -/
theorem normalize_confidence_safe (toF : Json → Option ℚ) (toS : Json → String)
    (raw : Json) :
    (∀ c, normalize_confidence toF toS raw = some c →
      (∀ q, c.score = some q → 0 ≤ q ∧ q ≤ 1) ∧
      (∀ l, c.level = some l → l = "low" ∨ l = "medium" ∨ l = "high")) ∧
    (∀ kvs sv q l, raw = Json.obj kvs →
      objGet kvs "score" = some sv → sv ≠ Json.null →
      pyFloat toF sv = some q → ¬ (0 ≤ q ∧ q ≤ 1) →
      objGet kvs "level" = some (Json.str l) →
      (l = "low" ∨ l = "medium" ∨ l = "high") →
      normalize_confidence toF toS raw = some ⟨none, some l⟩) ∧
    (∀ kvs l c, raw = Json.obj kvs →
      objGet kvs "level" = some (Json.str l) →
      ¬ (l = "low" ∨ l = "medium" ∨ l = "high") →
      normalize_confidence toF toS raw = some c → c.level = none) := by
  refine ⟨?_, ?_, ?_⟩
  · intro c hc
    cases raw with
    | obj kvs =>
      simp only [normalize_confidence] at hc
      split at hc
      · next c' hmk =>
        cases hc
        obtain ⟨hl, hs⟩ := mkConfidence_ok_inv _ _ _ hmk
        refine ⟨hs, fun l hcl => ?_⟩
        rw [hl] at hcl
        exact filterLevel_valid _ _ hcl
      · next e hmk =>
        cases hc
        exact ⟨fun q hq => (nomatch hq), fun l hcl => filterLevel_valid _ _ hcl⟩
    | null => cases hc
    | bool b => cases hc
    | num q => cases hc
    | str s => cases hc
    | arr xs => cases hc
  · intro kvs sv q l hraw hsv hqnn hq hnotr hlev hval
    subst hraw
    simp only [normalize_confidence, hsv, hlev, Option.getD_some,
      scoreOfRaw_of_ne_null toF sv hqnn, hq, levelOfRaw, pyStrOf,
      filterLevel_of_valid l hval, mkConfidence, if_neg hnotr]
  · intro kvs l c hraw hlev hnval hc
    subst hraw
    simp only [normalize_confidence, hlev, Option.getD_some, levelOfRaw, pyStrOf,
      filterLevel_of_invalid l hnval] at hc
    split at hc
    · next c' hmk =>
      cases hc
      exact (mkConfidence_ok_inv _ _ _ hmk).1
    · next e hmk =>
      cases hc
      rfl

/-- Witness for C10: a score of 5 is out of range and is discarded
while the accompanying valid level low is kept. -/
theorem normalize_confidence_safe_witness :
    normalize_confidence (fun _ => none) (fun _ => "x")
      (Json.obj [("score", Json.num 5), ("level", Json.str "low")]) =
      some ⟨none, some "low"⟩ :=
  (normalize_confidence_safe (fun _ => none) (fun _ => "x")
      (Json.obj [("score", Json.num 5), ("level", Json.str "low")])).2.1
    [("score", Json.num 5), ("level", Json.str "low")] (Json.num 5) 5 "low"
    rfl rfl (by intro h; cases h) rfl (by decide) rfl (by decide)

/-
C2.
-/

theorem mean_mem_unit (l : List ℚ) (hne : l ≠ [])
    (h : ∀ q ∈ l, 0 ≤ q ∧ q ≤ 1) :
    0 ≤ l.sum / (l.length : ℚ) ∧ l.sum / (l.length : ℚ) ≤ 1 := by
  have hlen : 0 < (l.length : ℚ) := by
    have := List.length_pos.mpr hne
    exact_mod_cast this
  have hsum0 : 0 ≤ l.sum := List.sum_nonneg (fun q hq => (h q hq).1)
  have hsumle : l.sum ≤ (l.length : ℚ) := by
    have := List.sum_le_card_nsmul l 1 (fun q hq => (h q hq).2)
    simpa [nsmul_eq_mul] using this
  exact ⟨div_nonneg hsum0 (le_of_lt hlen), (div_le_one hlen).mpr hsumle⟩

theorem pyMinByRank_mem (x : String) (xs : List String) :
    pyMinByRank x xs ∈ x :: xs := by
  induction xs generalizing x with
  | nil => simp [pyMinByRank]
  | cons y ys ih =>
    have hstep : pyMinByRank x (y :: ys) =
        pyMinByRank (if levelRank y < levelRank x then y else x) ys := rfl
    rw [hstep]
    rcases List.mem_cons.mp (ih (if levelRank y < levelRank x then y else x)) with h | h
    · rw [h]
      split
      · exact List.mem_cons_of_mem _ (List.mem_cons_self _ _)
      · exact List.mem_cons_self _ _
    · exact List.mem_cons_of_mem _ (List.mem_cons_of_mem _ h)

theorem pyMinByRank_le (x : String) (xs : List String) :
    ∀ z ∈ x :: xs, levelRank (pyMinByRank x xs) ≤ levelRank z := by
  induction xs generalizing x with
  | nil =>
    intro z hz
    rcases List.mem_cons.mp hz with h | h
    · rw [h]
      exact le_refl _
    · cases h
  | cons y ys ih =>
    intro z hz
    have hstep : pyMinByRank x (y :: ys) =
        pyMinByRank (if levelRank y < levelRank x then y else x) ys := rfl
    rw [hstep]
    have hhead := ih (if levelRank y < levelRank x then y else x) _
      (List.mem_cons_self _ _)
    rcases List.mem_cons.mp hz with h | h
    · rw [h]
      refine le_trans hhead ?_
      split
      · exact le_of_lt (by assumption)
      · exact le_refl _
    · rcases List.mem_cons.mp h with h2 | h2
      · rw [h2]
        refine le_trans hhead ?_
        split
        · exact le_refl _
        · exact Nat.le_of_not_lt (by assumption)
      · exact ih _ z (List.mem_cons_of_mem _ h2)

/-- Case analysis of the document confidence aggregation, shared by
the pipeline-level results. -/
theorem aggregate_doc_confidence_cases (pages : List PageExtraction)
    (hscore : ∀ p ∈ pages, ∀ c, p.page_confidence = some c →
      ∀ q, c.score = some q → 0 ≤ q ∧ q ≤ 1) :
    (pages.filterMap (fun p => p.page_confidence.bind (fun c => c.score)) ≠ [] →
      aggregate_doc_confidence pages = Except.ok (some
        ⟨some ((pages.filterMap (fun p => p.page_confidence.bind (fun c => c.score))).sum /
          ((pages.filterMap (fun p => p.page_confidence.bind (fun c => c.score))).length : ℚ)),
         none⟩)) ∧
    (pages.filterMap (fun p => p.page_confidence.bind (fun c => c.score)) = [] →
      ∀ l0 ls,
        pages.filterMap (fun p => p.page_confidence.bind (fun c => c.level)) = l0 :: ls →
        ∃ l, aggregate_doc_confidence pages = Except.ok (some ⟨none, some l⟩) ∧
          l ∈ l0 :: ls ∧ ∀ m ∈ l0 :: ls, levelRank l ≤ levelRank m) ∧
    (pages.filterMap (fun p => p.page_confidence.bind (fun c => c.score)) = [] →
      pages.filterMap (fun p => p.page_confidence.bind (fun c => c.level)) = [] →
      aggregate_doc_confidence pages = Except.ok none) := by
  have hmem : ∀ q ∈ pages.filterMap (fun p => p.page_confidence.bind (fun c => c.score)),
      0 ≤ q ∧ q ≤ 1 := by
    intro q hq
    obtain ⟨p, hp, hpq⟩ := List.mem_filterMap.mp hq
    cases hpc : p.page_confidence with
    | none => rw [hpc] at hpq; cases hpq
    | some c =>
      rw [hpc] at hpq
      exact hscore p hp c hpc q hpq
  refine ⟨?_, ?_, ?_⟩
  · intro hne
    obtain ⟨h0, h1⟩ := mean_mem_unit _ hne hmem
    simp only [aggregate_doc_confidence, if_neg hne, mkConfidence]
    rw [if_pos (And.intro h0 h1)]
  · intro he l0 ls hlev
    refine ⟨pyMinByRank l0 ls, ?_, pyMinByRank_mem l0 ls, pyMinByRank_le l0 ls⟩
    simp only [aggregate_doc_confidence, if_pos he, hlev, mkConfidence_none_ok]
  · intro he hlev
    simp only [aggregate_doc_confidence, if_pos he, hlev]

/-- C2: document confidence aggregation. If any page has a numeric
score, the result is a Confidence carrying the arithmetic mean of
exactly the present scores with no level. Otherwise, if any page has a
level, the result carries no score and the present level that is
minimal in levelRank, which on the three level names is the ordering
low < medium < high (the worst level). Otherwise no Confidence is
produced. The aggregation never fails when the page scores respect the
construction invariant. -/
theorem aggregate_doc_confidence_spec (pages : List PageExtraction)
    (hscore : ∀ p ∈ pages, ∀ c, p.page_confidence = some c →
      ∀ q, c.score = some q → 0 ≤ q ∧ q ≤ 1) :
    (pages.filterMap (fun p => p.page_confidence.bind (fun c => c.score)) ≠ [] →
      aggregate_doc_confidence pages = Except.ok (some
        ⟨some ((pages.filterMap (fun p => p.page_confidence.bind (fun c => c.score))).sum /
          ((pages.filterMap (fun p => p.page_confidence.bind (fun c => c.score))).length : ℚ)),
         none⟩)) ∧
    (pages.filterMap (fun p => p.page_confidence.bind (fun c => c.score)) = [] →
      ∀ l0 ls,
        pages.filterMap (fun p => p.page_confidence.bind (fun c => c.level)) = l0 :: ls →
        ∃ l, aggregate_doc_confidence pages = Except.ok (some ⟨none, some l⟩) ∧
          l ∈ l0 :: ls ∧ ∀ m ∈ l0 :: ls, levelRank l ≤ levelRank m) ∧
    (pages.filterMap (fun p => p.page_confidence.bind (fun c => c.score)) = [] →
      pages.filterMap (fun p => p.page_confidence.bind (fun c => c.level)) = [] →
      aggregate_doc_confidence pages = Except.ok none) :=
  aggregate_doc_confidence_cases pages hscore

/-- Concrete pages with scores 0.5, 0.6 and 0.7 (the specification
example). -/
def c2Pages : List PageExtraction :=
  [⟨0, [], [], some ⟨some (1/2), none⟩, [], []⟩,
   ⟨1, [], [], some ⟨some (3/5), none⟩, [], []⟩,
   ⟨2, [], [], some ⟨some (7/10), none⟩, [], []⟩]

-- Witness for C2: the batch confidence of pages with scores
-- 0.5, 0.6, 0.7 is 0.6.
unseal Rat.add Rat.mul Rat.inv Rat.sub in
theorem aggregate_doc_confidence_spec_witness :
    aggregate_doc_confidence c2Pages = Except.ok (some ⟨some (3/5), none⟩) := by
  have hs : ∀ p ∈ c2Pages, ∀ c, p.page_confidence = some c →
      ∀ q, c.score = some q → 0 ≤ q ∧ q ≤ 1 := by
    intro p hp c hpc q hq
    simp only [c2Pages, List.mem_cons, List.not_mem_nil, or_false] at hp
    rcases hp with rfl | rfl | rfl <;>
      (cases hpc; cases hq; exact ⟨by decide, by decide⟩)
  have h := (aggregate_doc_confidence_spec c2Pages hs).1 (by decide)
  have hval : ((c2Pages.filterMap (fun p => p.page_confidence.bind (fun c => c.score))).sum /
      ((c2Pages.filterMap (fun p => p.page_confidence.bind (fun c => c.score))).length : ℚ)) =
      3/5 := by decide
  rw [hval] at h
  exact h

/-
C1.
-/

theorem pipelineLoop_length {Img : Type} (A : Analyzer Img) (m : String)
    (c : List (String × Json)) :
    ∀ (l : List Img) (i : Nat), ((pipelineLoop A m c i l).1).length = l.length := by
  intro l
  induction l with
  | nil => intro i; rfl
  | cons x xs ih =>
    intro i
    simp only [pipelineLoop, List.length_cons, ih]

theorem pipelineLoop_get {Img : Type} (A : Analyzer Img) (m : String)
    (c : List (String × Json)) :
    ∀ (l : List Img) (i k : Nat) (hk : k < l.length)
      (hk2 : k < ((pipelineLoop A m c i l).1).length),
      ((pipelineLoop A m c i l).1).get ⟨k, hk2⟩ = pageStep A m c (i + k) (l.get ⟨k, hk⟩) := by
  intro l
  induction l with
  | nil => intro i k hk _; cases hk
  | cons x xs ih =>
    intro i k hk hk2
    cases k with
    | zero => rfl
    | succ k' =>
      have hk' : k' < xs.length := by
        simpa [Nat.succ_lt_succ_iff] using hk
      have hk2' : k' < ((pipelineLoop A m c (i + 1) xs).1).length := by
        rw [pipelineLoop_length]
        exact hk'
      have : ((pipelineLoop A m c i (x :: xs)).1).get ⟨k' + 1, hk2⟩ =
          ((pipelineLoop A m c (i + 1) xs).1).get ⟨k', hk2'⟩ := rfl
      rw [this, ih (i + 1) k' hk' hk2']
      congr 1
      omega

theorem pipelineLoop_warn_mem {Img : Type} (A : Analyzer Img) (m : String)
    (c : List (String × Json)) :
    ∀ (l : List Img) (i k : Nat) (hk : k < l.length) (w : String),
      w ∈ (pageStep A m c (i + k) (l.get ⟨k, hk⟩)).warnings →
      ("page[" ++ toString (i + k) ++ "]: " ++ w) ∈ (pipelineLoop A m c i l).2 := by
  intro l
  induction l with
  | nil => intro i k hk w _; cases hk
  | cons x xs ih =>
    intro i k hk w hw
    cases k with
    | zero =>
      simp only [Nat.add_zero] at hw ⊢
      simp only [pipelineLoop, List.mem_append]
      exact Or.inl (List.mem_map_of_mem _ hw)
    | succ k' =>
      have hk' : k' < xs.length := by
        simpa [Nat.succ_lt_succ_iff] using hk
      have heq : i + (k' + 1) = (i + 1) + k' := by omega
      simp only [pipelineLoop, List.mem_append]
      refine Or.inr ?_
      have hw2 : w ∈ (pageStep A m c ((i + 1) + k') (xs.get ⟨k', hk'⟩)).warnings := by
        rw [← heq]
        exact hw
      have := ih (i + 1) k' hk' w hw2
      rw [heq]
      exact this

theorem pipelineLoop_results_valid {Img : Type} (A : Analyzer Img) (m : String)
    (c : List (String × Json))
    (hvalid : ∀ img i r, A img i m c = Except.ok r →
      ∀ cc, r.page_confidence = some cc → ∀ q, cc.score = some q → 0 ≤ q ∧ q ≤ 1) :
    ∀ (l : List Img) (i : Nat) (p : PageExtraction), p ∈ (pipelineLoop A m c i l).1 →
      ∀ cc, p.page_confidence = some cc → ∀ q, cc.score = some q → 0 ≤ q ∧ q ≤ 1 := by
  have hstep : ∀ (i : Nat) (img : Img) (cc : Confidence),
      (pageStep A m c i img).page_confidence = some cc →
      ∀ q, cc.score = some q → 0 ≤ q ∧ q ≤ 1 := by
    intro i img cc hcc q hq
    unfold pageStep at hcc
    cases hA : A img i m c with
    | ok r =>
      rw [hA] at hcc
      exact hvalid img i r hA cc hcc q hq
    | error e =>
      rw [hA] at hcc
      cases hcc
  intro l
  induction l with
  | nil => intro i p hp; cases hp
  | cons x xs ih =>
    intro i p hp
    rcases List.mem_cons.mp hp with h | h
    · intro cc hcc
      rw [h] at hcc
      exact hstep i x cc hcc
    · exact ih (i + 1) p h

theorem aggregate_total (pages : List PageExtraction)
    (h : ∀ p ∈ pages, ∀ c, p.page_confidence = some c →
      ∀ q, c.score = some q → 0 ≤ q ∧ q ≤ 1) :
    ∃ oc, aggregate_doc_confidence pages = Except.ok oc := by
  rcases hs : pages.filterMap (fun p => p.page_confidence.bind (fun c => c.score))
      with _ | ⟨q, qs⟩
  · rcases hl : pages.filterMap (fun p => p.page_confidence.bind (fun c => c.level))
        with _ | ⟨l0, ls⟩
    · exact ⟨none, (aggregate_doc_confidence_cases pages h).2.2 hs hl⟩
    · obtain ⟨l, hagg, _, _⟩ := (aggregate_doc_confidence_cases pages h).2.1 hs l0 ls hl
      exact ⟨_, hagg⟩
  · refine ⟨_, (aggregate_doc_confidence_cases pages h).1 ?_⟩
    rw [hs]
    exact List.cons_ne_nil q qs

/-- C1 (amended: the batch warning prefix is page[index]:, not
unit[index]:): the document pipeline never raises. Whatever the
analyzer does at whatever page, the pipeline returns a result with one
page entry per input page in index order; a page at which the analyzer
raised gets empty fields and tables, no confidence and the single
warning carrying the exception classification, and the batch warning
list holds that warning under the page[index]: prefix; pages at which
the analyzer returned normally keep their results unchanged. The
hypothesis only restates the Confidence construction invariant, which
every Python Confidence satisfies. -/
theorem batch_pipeline_isolates_unit_failures {Img : Type} (analyzer : Analyzer Img)
    (inp : DocumentPipelineInput Img)
    (hvalid : ∀ img i r, analyzer img i inp.mode (inp.context.getD []) = Except.ok r →
      ∀ c, r.page_confidence = some c → ∀ q, c.score = some q → 0 ≤ q ∧ q ≤ 1) :
    ∃ res, run_document_pipeline analyzer inp = Except.ok res ∧
      res.pages.length = inp.pages.length ∧
      (∀ k (hk : k < inp.pages.length) (hk2 : k < res.pages.length) e,
        analyzer (inp.pages.get ⟨k, hk⟩) k inp.mode (inp.context.getD []) = Except.error e →
          (res.pages.get ⟨k, hk2⟩).fields = [] ∧
          (res.pages.get ⟨k, hk2⟩).tables = [] ∧
          (res.pages.get ⟨k, hk2⟩).page_confidence = none ∧
          (res.pages.get ⟨k, hk2⟩).warnings = ["Analyzer exception: " ++ excText e] ∧
          ("page[" ++ toString k ++ "]: " ++ ("Analyzer exception: " ++ excText e)) ∈
            res.warnings) ∧
      (∀ k (hk : k < inp.pages.length) (hk2 : k < res.pages.length) r,
        analyzer (inp.pages.get ⟨k, hk⟩) k inp.mode (inp.context.getD []) = Except.ok r →
          res.pages.get ⟨k, hk2⟩ = r) := by
  obtain ⟨oc, hoc⟩ := aggregate_total
    (pipelineLoop analyzer inp.mode (inp.context.getD []) 0 inp.pages).1
    (fun p hp => pipelineLoop_results_valid analyzer inp.mode (inp.context.getD [])
      hvalid inp.pages 0 p hp)
  refine ⟨⟨(pipelineLoop analyzer inp.mode (inp.context.getD []) 0 inp.pages).1, oc,
      (pipelineLoop analyzer inp.mode (inp.context.getD []) 0 inp.pages).2,
      [("pipeline", Json.str "document"), ("mode", Json.str inp.mode),
       ("pages_processed",
         Json.num
           ((((pipelineLoop analyzer inp.mode (inp.context.getD []) 0 inp.pages).1).length : ℚ))),
       ("input_file_type", Json.str inp.file_type)]⟩, ?_, ?_, ?_, ?_⟩
  · simp only [run_document_pipeline, hoc]
  · exact pipelineLoop_length analyzer inp.mode (inp.context.getD []) inp.pages 0
  · intro k hk hk2 e hA
    have hget := pipelineLoop_get analyzer inp.mode (inp.context.getD [])
      inp.pages 0 k hk hk2
    have hstep : pageStep analyzer inp.mode (inp.context.getD []) (0 + k)
        (inp.pages.get ⟨k, hk⟩) = degradedPage k inp.mode e := by
      unfold pageStep
      rw [Nat.zero_add, hA]
    rw [hget, hstep]
    refine ⟨rfl, rfl, rfl, rfl, ?_⟩
    have hw : ("Analyzer exception: " ++ excText e) ∈
        (pageStep analyzer inp.mode (inp.context.getD []) (0 + k)
          (inp.pages.get ⟨k, hk⟩)).warnings := by
      rw [hstep]
      exact List.mem_singleton.mpr rfl
    have := pipelineLoop_warn_mem analyzer inp.mode (inp.context.getD [])
      inp.pages 0 k hk _ hw
    rw [Nat.zero_add] at this
    exact this
  · intro k hk hk2 r hA
    have hget := pipelineLoop_get analyzer inp.mode (inp.context.getD [])
      inp.pages 0 k hk hk2
    rw [hget]
    unfold pageStep
    rw [Nat.zero_add, hA]

/-- The concrete analyzer of the batch examples: it raises a
RuntimeError at page 1 and returns a page with score 0.5 elsewhere. -/
def c1Analyzer : Analyzer Unit := fun _ k _ _ =>
  if k = 1 then Except.error ⟨"RuntimeError", "boom"⟩
  else Except.ok ⟨k, [], [], some ⟨some (1/2), none⟩, [], [("name", Json.str "vlm")]⟩

/-- The concrete three-page input of the batch examples. -/
def c1Input : DocumentPipelineInput Unit :=
  ⟨[(), (), ()], "pdf", "fast", none⟩

-- Counterexample to C1 as stated: in the three-page batch where page
-- 1 raises, the batch warning entry of the failing unit is prefixed
-- page[1]:, and no batch warning carries the unit[ prefix the claim
-- requires.
unseal Rat.add Rat.mul Rat.inv Rat.sub in
theorem batch_warning_prefix_counterexample :
    (run_document_pipeline c1Analyzer c1Input).map (fun r => r.warnings) =
      Except.ok ["page[1]: Analyzer exception: RuntimeError: boom"] ∧
    (run_document_pipeline c1Analyzer c1Input).map
        (fun r => r.warnings.any (fun w => "unit[".toList.isPrefixOf w.toList)) =
      Except.ok false := by
  exact ⟨rfl, rfl⟩

-- Witness for C1: the amended theorem applied to the concrete
-- three-page batch.
unseal Rat.add Rat.mul Rat.inv Rat.sub in
theorem batch_pipeline_isolates_unit_failures_witness :
    ∃ res, run_document_pipeline c1Analyzer c1Input = Except.ok res ∧
      res.pages.length = c1Input.pages.length := by
  have hv : ∀ img i r, c1Analyzer img i c1Input.mode (c1Input.context.getD []) = Except.ok r →
      ∀ c, r.page_confidence = some c → ∀ q, c.score = some q → 0 ≤ q ∧ q ≤ 1 := by
    intro img i r hA c hc q hq
    by_cases hi : i = 1
    · rw [hi] at hA
      cases hA
    · simp only [c1Analyzer, if_neg hi] at hA
      cases hA
      cases hc
      cases hq
      exact ⟨by decide, by decide⟩
  obtain ⟨res, h1, h2, _, _⟩ :=
    batch_pipeline_isolates_unit_failures c1Analyzer c1Input hv
  exact ⟨res, h1, h2⟩

/-
C3, C4, C5.
-/

theorem range_map_head {α : Type} (F : Nat → α) (n : Nat) :
    (List.range (n + 1)).map F = F 0 :: (List.range n).map (fun k => F (k + 1)) := by
  rw [List.range_succ_eq_map, List.map_cons, List.map_map]
  rfl

theorem map_iterate_shift (n : Nat) (inp : VLMInput) (lbl : String) :
    (List.range n).map (fun k => (tighten_prompt^[k + 1] inp, lbl)) =
    (List.range n).map (fun k => (tighten_prompt^[k] (tighten_prompt inp), lbl)) := by
  have hfun : (fun k => (tighten_prompt^[k + 1] inp, lbl)) =
      (fun k => (tighten_prompt^[k] (tighten_prompt inp), lbl)) := by
    funext k
    rw [Function.iterate_succ_apply]
  rw [hfun]

theorem vlmRetryLoop_all_invalid (f : Nat → VLMInput → String) :
    ∀ (rem a : Nat) (inp : VLMInput),
      @vlmRetryLoop Unit (fun k i => VLMOutcome.invalid (f k i)) inp a rem =
        ((List.range (rem + 1)).map (fun k => (tighten_prompt^[k] inp, "invalid_output")),
         Except.error ⟨502, "invalid_vlm_output", f (a + rem) (tighten_prompt^[rem] inp)⟩) := by
  intro rem
  induction rem with
  | zero =>
    intro a inp
    simp [vlmRetryLoop, show List.range 1 = [0] from rfl]
  | succ rem ih =>
    intro a inp
    simp only [vlmRetryLoop]
    rw [ih (a + 1) (tighten_prompt inp)]
    rw [range_map_head (fun k => (tighten_prompt^[k] inp, "invalid_output")) (rem + 1)]
    rw [map_iterate_shift (rem + 1) inp "invalid_output"]
    have harith : (a + 1) + rem = a + (rem + 1) := by omega
    rw [harith, Function.iterate_succ_apply, Function.iterate_zero_apply]

/-- C3: a wrapped call that raises a contract-invalid failure on every
attempt is attempted exactly retries + 1 = max_attempts times: the
trace carries one invalid_output entry per attempt, attempt k being
issued with the k-fold tightened input, and the failure surfaced after
the budget is exhausted is that of the last attempt, as a 502
invalid_vlm_output error. -/
theorem vlm_contract_invalid_exhausts_budget (retries : Nat) (inp : VLMInput)
    (f : Nat → VLMInput → String) :
    @run_vlm_with_retries Unit (fun k i => VLMOutcome.invalid (f k i)) retries inp =
      ((List.range (retries + 1)).map (fun k => (tighten_prompt^[k] inp, "invalid_output")),
       Except.error ⟨502, "invalid_vlm_output",
         f retries (tighten_prompt^[retries] inp)⟩) := by
  have h := vlmRetryLoop_all_invalid f retries 0 inp
  simpa [run_vlm_with_retries] using h

theorem vlmRetryLoop_invalid_prefix {R : Type} (call : Nat → VLMInput → VLMOutcome R)
    (g : Nat → String) :
    ∀ (k a rem : Nat) (inp : VLMInput), k ≤ rem →
      (∀ j, j < k → call (a + j) (tighten_prompt^[j] inp) = VLMOutcome.invalid (g (a + j))) →
      vlmRetryLoop call inp a rem =
        ((List.range k).map (fun j => (tighten_prompt^[j] inp, "invalid_output")) ++
           (vlmRetryLoop call (tighten_prompt^[k] inp) (a + k) (rem - k)).1,
         (vlmRetryLoop call (tighten_prompt^[k] inp) (a + k) (rem - k)).2) := by
  intro k
  induction k with
  | zero =>
    intro a rem inp _ _
    simp
  | succ k ih =>
    intro a rem inp hk hinv
    cases rem with
    | zero => omega
    | succ rem =>
      have h0 : call a inp = VLMOutcome.invalid (g a) := by
        have := hinv 0 (Nat.succ_pos k)
        simpa using this
      have hinv2 : ∀ j, j < k →
          call ((a + 1) + j) (tighten_prompt^[j] (tighten_prompt inp)) =
            VLMOutcome.invalid (g ((a + 1) + j)) := by
        intro j hj
        have := hinv (j + 1) (by omega)
        rw [Function.iterate_succ_apply] at this
        have harith : a + (j + 1) = (a + 1) + j := by omega
        rw [harith] at this
        exact this
      show vlmRetryLoop call inp a (Nat.succ rem) = _
      simp only [vlmRetryLoop, h0]
      rw [ih (a + 1) rem (tighten_prompt inp) (by omega) hinv2]
      have harith2 : (a + 1) + k = a + (k + 1) := by omega
      have hiter : tighten_prompt^[k] (tighten_prompt inp) = tighten_prompt^[k + 1] inp :=
        (Function.iterate_succ_apply tighten_prompt k inp).symm
      have hsub : rem - k = Nat.succ rem - (k + 1) := by omega
      rw [harith2, hiter, hsub]
      rw [range_map_head (fun j => (tighten_prompt^[j] inp, "invalid_output")) k]
      rw [map_iterate_shift k inp "invalid_output"]
      rw [Function.iterate_zero_apply, List.cons_append]

theorem vlmRetryLoop_timeout_step {R : Type} (call : Nat → VLMInput → VLMOutcome R)
    (inp : VLMInput) (a rem : Nat) (msg : String)
    (h : call a inp = VLMOutcome.timeout msg) :
    vlmRetryLoop call inp a rem = ([(inp, "timeout")], Except.error ⟨504, "timeout", msg⟩) := by
  cases rem <;> simp [vlmRetryLoop, h]

theorem vlmRetryLoop_failed_step {R : Type} (call : Nat → VLMInput → VLMOutcome R)
    (inp : VLMInput) (a rem : Nat) (msg : String)
    (h : call a inp = VLMOutcome.failed msg) :
    vlmRetryLoop call inp a rem = ([(inp, "failed")], Except.error ⟨502, "vlm_failed", msg⟩) := by
  cases rem <;> simp [vlmRetryLoop, h]

/-- C4 (amended): on the image-VLM runner a timeout is never retried.
If attempts 0 .. k-1 raise contract-invalid failures and attempt k
times out, the run stops with exactly k + 1 attempts in the trace, the
last labelled timeout, and immediately surfaces the 504 timeout error;
the surfaced error carries no attempt count. The text-LLM retry
wrapper of llm_client.py, cited by the claim, does retry timeouts —
see the counterexample. -/
theorem vlm_timeout_never_retried {R : Type} (call : Nat → VLMInput → VLMOutcome R)
    (retries k : Nat) (inp : VLMInput) (g : Nat → String) (msg : String)
    (hk : k ≤ retries)
    (hinv : ∀ j, j < k → call j (tighten_prompt^[j] inp) = VLMOutcome.invalid (g j))
    (ht : call k (tighten_prompt^[k] inp) = VLMOutcome.timeout msg) :
    run_vlm_with_retries call retries inp =
      ((List.range k).map (fun j => (tighten_prompt^[j] inp, "invalid_output")) ++
         [(tighten_prompt^[k] inp, "timeout")],
       Except.error ⟨504, "timeout", msg⟩) := by
  have hpre := vlmRetryLoop_invalid_prefix call g k 0 retries inp hk
    (by simpa using hinv)
  have hstep := vlmRetryLoop_timeout_step call (tighten_prompt^[k] inp) (0 + k)
    (retries - k) msg (by simpa using ht)
  show vlmRetryLoop call inp 0 retries = _
  rw [hpre, hstep]

/-- C5 (amended): on the image-VLM runner an exception that is neither
a timeout nor a classified contract-invalid failure is not retried: it
is surfaced to the caller immediately as a 502 vlm_failed error, with
no further attempt, regardless of the remaining retry budget. The
claim as stated, that such exceptions are retried on the same budget
as contract-invalid failures, fails — see the counterexample. -/
theorem vlm_generic_failure_immediate_502 {R : Type} (call : Nat → VLMInput → VLMOutcome R)
    (retries k : Nat) (inp : VLMInput) (g : Nat → String) (msg : String)
    (hk : k ≤ retries)
    (hinv : ∀ j, j < k → call j (tighten_prompt^[j] inp) = VLMOutcome.invalid (g j))
    (hf : call k (tighten_prompt^[k] inp) = VLMOutcome.failed msg) :
    run_vlm_with_retries call retries inp =
      ((List.range k).map (fun j => (tighten_prompt^[j] inp, "invalid_output")) ++
         [(tighten_prompt^[k] inp, "failed")],
       Except.error ⟨502, "vlm_failed", msg⟩) := by
  have hpre := vlmRetryLoop_invalid_prefix call g k 0 retries inp hk
    (by simpa using hinv)
  have hstep := vlmRetryLoop_failed_step call (tighten_prompt^[k] inp) (0 + k)
    (retries - k) msg (by simpa using hf)
  show vlmRetryLoop call inp 0 retries = _
  rw [hpre, hstep]

/-- The concrete input of the retry-runner examples. -/
def cVlmInput : VLMInput := ⟨"describe the image", none, none⟩

/-- A backend that raises a contract-invalid failure at attempt 0 and
times out at every later attempt. -/
def c4Call : Nat → VLMInput → VLMOutcome Unit := fun k _ =>
  if k = 0 then VLMOutcome.invalid "bad" else VLMOutcome.timeout "slow"

-- Witness for C4: with budget retries = 2, the invalid attempt 0 is
-- retried once and the timeout at attempt 1 ends the run with a 504.
theorem vlm_timeout_never_retried_witness :
    run_vlm_with_retries c4Call 2 cVlmInput =
      ([(cVlmInput, "invalid_output"), (tighten_prompt cVlmInput, "timeout")],
       Except.error ⟨504, "timeout", "slow"⟩) := by
  have h := vlm_timeout_never_retried c4Call 2 1 cVlmInput (fun _ => "bad") "slow"
    (by omega)
    (by
      intro j hj
      have hj0 : j = 0 := by omega
      subst hj0
      rfl)
    rfl
  simpa using h

/-- An inner text-LLM client that times out at attempt 1 and succeeds
at attempt 2. -/
def c4Inner : Nat → Except LLMFail LLMInnerResult := fun a =>
  if a = 1 then Except.error (LLMFail.timeout "slow")
  else Except.ok ⟨"ok-text", "m", []⟩

/-- Counterexample to C4 as stated: in the text-LLM retry wrapper,
cited by the claim, a timeout is retried. Attempt 1 times out, yet the
wrapper performs attempt 2 and returns its success with attempt count
2, instead of surfacing the timeout immediately with attempt
count 1. -/
theorem llm_timeout_retried_counterexample :
    c4Inner 1 = Except.error (LLMFail.timeout "slow") ∧
    retrying_generate c4Inner 2 =
      Except.ok ⟨"ok-text", "m", 2, [("retry_wrapper", Json.bool true)]⟩ :=
  ⟨rfl, rfl⟩

/-- A backend whose call raises a generic (neither timeout nor
contract-invalid) exception on every attempt. -/
def c5Call : Nat → VLMInput → VLMOutcome Unit := fun _ _ => VLMOutcome.failed "boom"

/-- Counterexample to C5 as stated: with retry budget 2 (three
attempts available), a call raising a generic exception is not
retried: the runner makes exactly one attempt and surfaces the 502
vlm_failed error immediately. -/
theorem vlm_generic_failure_not_retried_counterexample :
    run_vlm_with_retries c5Call 2 cVlmInput =
      ([(cVlmInput, "failed")], Except.error ⟨502, "vlm_failed", "boom"⟩) := rfl

/-- A backend that raises a contract-invalid failure at attempt 0 and
a generic exception at every later attempt. -/
def c5Call2 : Nat → VLMInput → VLMOutcome Unit := fun k _ =>
  if k = 0 then VLMOutcome.invalid "bad" else VLMOutcome.failed "boom"

-- Witness for C5: with budget retries = 2, the invalid attempt 0 is
-- retried once and the generic failure at attempt 1 ends the run with
-- a 502 vlm_failed.
theorem vlm_generic_failure_immediate_502_witness :
    run_vlm_with_retries c5Call2 2 cVlmInput =
      ([(cVlmInput, "invalid_output"), (tighten_prompt cVlmInput, "failed")],
       Except.error ⟨502, "vlm_failed", "boom"⟩) := by
  have h := vlm_generic_failure_immediate_502 c5Call2 2 1 cVlmInput (fun _ => "bad") "boom"
    (by omega)
    (by
      intro j hj
      have hj0 : j = 0 := by omega
      subst hj0
      rfl)
    rfl
  simpa using h

/-
C6.
-/

/-- The shape the grounded-explanation contract requires, stated from
the claim: an object whose key set is exactly the five required keys,
whose risk_level is one of the three names, and whose assumptions and
limitations are lists. -/
def GoodShapeProp (p : Json) : Prop :=
  ∃ kvs, p = Json.obj kvs ∧
    (∀ k, k ∈ kvs.map Prod.fst ↔ k ∈ REQUIRED_KEYS) ∧
    (∃ s, objGet kvs "risk_level" = some (Json.str s) ∧
      (s = "low" ∨ s = "medium" ∨ s = "high")) ∧
    (∃ xs, objGet kvs "assumptions" = some (Json.arr xs)) ∧
    (∃ ys, objGet kvs "limitations" = some (Json.arr ys))

theorem validate_schema_iff (p : Json) :
    validate_schema p = true ↔ GoodShapeProp p := by
  constructor
  · intro h
    cases p with
    | obj kvs =>
      simp only [validate_schema, Bool.and_eq_true, List.all_eq_true] at h
      obtain ⟨⟨⟨⟨hsub1, hsub2⟩, hrisk⟩, hassum⟩, hlim⟩ := h
      refine ⟨kvs, rfl, ?_, ?_, ?_, ?_⟩
      · intro k
        constructor
        · intro hk
          simpa using hsub1 k hk
        · intro hk
          simpa using hsub2 k hk
      · rcases hobj : objGet kvs "risk_level" with _ | v
        · rw [hobj] at hrisk
          cases hrisk
        · cases v with
          | str s =>
            rw [hobj] at hrisk
            refine ⟨s, rfl, ?_⟩
            simpa [or_assoc] using hrisk
          | null => rw [hobj] at hrisk; cases hrisk
          | bool b => rw [hobj] at hrisk; cases hrisk
          | num q => rw [hobj] at hrisk; cases hrisk
          | arr xs => rw [hobj] at hrisk; cases hrisk
          | obj kvs2 => rw [hobj] at hrisk; cases hrisk
      · rcases hobj : objGet kvs "assumptions" with _ | v
        · rw [hobj] at hassum
          cases hassum
        · cases v with
          | arr xs => exact ⟨xs, rfl⟩
          | null => rw [hobj] at hassum; cases hassum
          | bool b => rw [hobj] at hassum; cases hassum
          | num q => rw [hobj] at hassum; cases hassum
          | str s => rw [hobj] at hassum; cases hassum
          | obj kvs2 => rw [hobj] at hassum; cases hassum
      · rcases hobj : objGet kvs "limitations" with _ | v
        · rw [hobj] at hlim
          cases hlim
        · cases v with
          | arr ys => exact ⟨ys, rfl⟩
          | null => rw [hobj] at hlim; cases hlim
          | bool b => rw [hobj] at hlim; cases hlim
          | num q => rw [hobj] at hlim; cases hlim
          | str s => rw [hobj] at hlim; cases hlim
          | obj kvs2 => rw [hobj] at hlim; cases hlim
    | null => simp [validate_schema] at h
    | bool b => simp [validate_schema] at h
    | num q => simp [validate_schema] at h
    | str s => simp [validate_schema] at h
    | arr xs => simp [validate_schema] at h
  · rintro ⟨kvs, hp, hkeys, ⟨s, hs, hsv⟩, ⟨xs, hxs⟩, ⟨ys, hys⟩⟩
    subst hp
    simp only [validate_schema, Bool.and_eq_true, List.all_eq_true]
    refine ⟨⟨⟨⟨?_, ?_⟩, ?_⟩, ?_⟩, ?_⟩
    · intro k hk
      simpa using (hkeys k).mp hk
    · intro k hk
      simpa using (hkeys k).mpr hk
    · rw [hs]
      rcases hsv with h | h | h <;> simp [h]
    · rw [hxs]
    · rw [hys]

theorem fallback_GoodShape (reason : String) (facts : List (String × Json)) :
    GoodShapeProp (fallback_explanation reason facts) := by
  refine ⟨_, rfl, ?_, ?_, ?_, ?_⟩
  · intro k
    exact Iff.rfl
  · refine ⟨if factsWarningsTruthy facts then "high" else "medium", rfl, ?_⟩
    cases factsWarningsTruthy facts <;> simp
  · exact ⟨[], rfl⟩
  · exact ⟨_, rfl⟩

/-- C6: generateExplanation returns the parsed backend object exactly
when the backend call succeeds and the decoded value is an object with
exactly the five required keys, an enumerated risk_level and
list-typed assumptions and limitations. On any failure — backend
exception, invalid JSON, wrong shape — it returns the fixed fallback
object built for that specific failure reason, and every fallback
object has risk_level high when the facts carry (truthy) warnings and
medium otherwise, empty assumptions, and limitations containing the
failure reason plus, when warnings exist, the warnings note. -/
theorem grounded_explanation_contract (facts : List (String × Json))
    (out : Except String String) :
    (∀ raw p, out = Except.ok raw → parse_llm_json raw = some p →
      (generate_grounded_explanation out facts = p ↔ GoodShapeProp p)) ∧
    (∀ e, out = Except.error e →
      generate_grounded_explanation out facts =
        fallback_explanation ("LLM error: " ++ e) facts) ∧
    (∀ raw, out = Except.ok raw → parse_llm_json raw = none →
      generate_grounded_explanation out facts =
        fallback_explanation "Invalid JSON returned by LLM" facts) ∧
    (∀ raw p, out = Except.ok raw → parse_llm_json raw = some p → ¬ GoodShapeProp p →
      generate_grounded_explanation out facts =
        fallback_explanation "LLM JSON missing required keys" facts) ∧
    (∀ reason, ∃ kvs, fallback_explanation reason facts = Json.obj kvs ∧
      objGet kvs "risk_level" =
        some (Json.str (if factsWarningsTruthy facts then "high" else "medium")) ∧
      objGet kvs "assumptions" = some (Json.arr []) ∧
      (∃ ls, objGet kvs "limitations" = some (Json.arr ls) ∧ Json.str reason ∈ ls ∧
        (factsWarningsTruthy facts = true →
          Json.str "The analysis contains warnings that reduce confidence." ∈ ls))) := by
  refine ⟨?_, ?_, ?_, ?_, ?_⟩
  · intro raw p hout hp
    subst hout
    simp only [generate_grounded_explanation, hp]
    by_cases hv : validate_schema p = true
    · rw [if_pos hv]
      exact ⟨fun _ => (validate_schema_iff p).mp hv, fun _ => rfl⟩
    · rw [if_neg hv]
      constructor
      · intro h
        rw [← h]
        exact fallback_GoodShape _ _
      · intro hg
        exact absurd ((validate_schema_iff p).mpr hg) hv
  · intro e hout
    subst hout
    rfl
  · intro raw hout hp
    subst hout
    simp only [generate_grounded_explanation, hp]
  · intro raw p hout hp hng
    subst hout
    simp only [generate_grounded_explanation, hp]
    rw [if_neg (fun hv => hng ((validate_schema_iff p).mp hv))]
  · intro reason
    refine ⟨_, rfl, rfl, rfl, ?_⟩
    refine ⟨_, rfl, ?_, ?_⟩
    · exact List.mem_append_right _ (List.mem_singleton.mpr rfl)
    · intro hw
      simp [hw]

/-- The concrete facts object of the explanation examples, carrying
one warning. -/
def c6Facts : List (String × Json) := [("warnings", Json.arr [Json.str "w"])]

-- Witness for C6: a backend exception with warning-carrying facts
-- yields the fallback, whose risk_level is high.
theorem grounded_explanation_contract_witness :
    generate_grounded_explanation (Except.error "TimeoutError") c6Facts =
      fallback_explanation "LLM error: TimeoutError" c6Facts ∧
    (∃ kvs, fallback_explanation "LLM error: TimeoutError" c6Facts = Json.obj kvs ∧
      objGet kvs "risk_level" = some (Json.str "high")) := by
  have h := grounded_explanation_contract c6Facts (Except.error "TimeoutError")
  refine ⟨h.2.1 "TimeoutError" rfl, ?_⟩
  obtain ⟨kvs, hkvs, hrisk, -, -⟩ := h.2.2.2.2 "LLM error: TimeoutError"
  refine ⟨kvs, hkvs, ?_⟩
  rw [hrisk]
  rfl

/-
C7.
-/

theorem firstIdx_append_none (p : Char → Bool) (l1 l2 : List Char)
    (h : ∀ c ∈ l1, p c = false) :
    firstIdx p (l1 ++ l2) = (firstIdx p l2).map (fun i => i + l1.length) := by
  induction l1 with
  | nil =>
    show firstIdx p l2 = (firstIdx p l2).map (fun i => i + 0)
    cases h2 : firstIdx p l2 <;> simp [h2]
  | cons x xs ih =>
    have hx : p x = false := h x (List.mem_cons_self _ _)
    have hrec := ih (fun c hc => h c (List.mem_cons_of_mem _ hc))
    show (if p x = true then some 0 else (firstIdx p (xs ++ l2)).map (fun i => i + 1)) =
      (firstIdx p l2).map (fun i => i + (xs.length + 1))
    rw [hx]
    simp only [Bool.false_eq_true, if_false]
    rw [hrec]
    cases firstIdx p l2 <;> simp [Nat.add_assoc]

theorem firstIdx_cons_true (p : Char → Bool) (c : Char) (l : List Char)
    (h : p c = true) : firstIdx p (c :: l) = some 0 := by
  simp [firstIdx, h]

theorem take_append_len {α : Type} (l1 l2 : List α) (n : Nat) :
    (l1 ++ l2).take (l1.length + n) = l1 ++ l2.take n := by
  induction l1 with
  | nil => simp
  | cons x xs ih =>
    simp only [List.cons_append, List.length_cons]
    rw [Nat.succ_add, List.take_succ_cons, ih]

theorem mk_append_append (mid : String) :
    ("\x7b" ++ mid ++ "\x7d") = String.mk ('{' :: (mid.toList ++ ['}'])) := rfl

/-- C7 (amended): the substring extraction tolerant of surrounding
prose exists on the image-VLM parsing path: for any text
pre ++ brace ++ mid ++ unbrace ++ post where pre has no opening brace
and post has no closing brace, extract_json_object returns exactly the
braced middle, whatever prose surrounds it. The grounded-explanation
path performs no such extraction: parse_llm_json decodes the whole
text directly, so any text beginning with the prose Answer-colon-space
is rejected whatever well-formed JSON object appears after it. -/
theorem json_extraction_paths :
    (∀ pre mid post : String,
      (∀ c ∈ pre.toList, c ≠ '{') → (∀ c ∈ post.toList, c ≠ '}') →
      extract_json_object (pre ++ "\x7b" ++ mid ++ "\x7d" ++ post) =
        some ("\x7b" ++ mid ++ "\x7d")) ∧
    (∀ rest : String, parse_llm_json ("Answer: " ++ rest) = none) := by
  constructor
  · intro pre mid post hpre hpost
    have hdata : (pre ++ "\x7b" ++ mid ++ "\x7d" ++ post).toList =
        pre.toList ++ ('{' :: (mid.toList ++ ('}' :: post.toList))) := by
      show (pre ++ "\x7b" ++ mid ++ "\x7d" ++ post).data =
        pre.data ++ ('{' :: (mid.data ++ ('}' :: post.data)))
      simp [String.data_append]
    have hne : (pre ++ "\x7b" ++ mid ++ "\x7d" ++ post) ≠ "" := by
      intro h
      have h2 := congrArg String.toList h
      rw [hdata] at h2
      simp at h2
    have hfirst : firstIdx (fun c => c == '{')
        ((pre ++ "\x7b" ++ mid ++ "\x7d" ++ post).toList) = some pre.toList.length := by
      rw [hdata]
      rw [firstIdx_append_none _ _ _ (fun c hc => by simpa using hpre c hc)]
      rw [firstIdx_cons_true _ _ _ (by simp)]
      simp
    have hlast : findLastIdx (fun c => c == '}')
        ((pre ++ "\x7b" ++ mid ++ "\x7d" ++ post).toList) =
        some (pre.toList.length + mid.toList.length + 1) := by
      unfold findLastIdx
      rw [hdata]
      have hrev : (pre.toList ++ ('{' :: (mid.toList ++ ('}' :: post.toList)))).reverse =
          post.toList.reverse ++
            ('}' :: (mid.toList.reverse ++ ('{' :: pre.toList.reverse))) := by
        simp [List.reverse_append]
      rw [hrev]
      rw [firstIdx_append_none _ _ _ (fun c hc => by
        simpa using hpost c (List.mem_reverse.mp hc))]
      rw [firstIdx_cons_true _ _ _ (by simp)]
      simp only [Option.map, List.length_reverse, List.length_append, List.length_cons]
      congr 1
      omega
    simp only [extract_json_object, if_neg hne]
    simp only [hfirst, hlast]
    rw [if_pos (by omega :
      pre.toList.length < pre.toList.length + mid.toList.length + 1)]
    have harith : pre.toList.length + mid.toList.length + 1 - pre.toList.length + 1 =
        mid.toList.length + 1 + 1 := by omega
    rw [harith]
    rw [hdata, List.drop_left]
    rw [List.take_succ_cons]
    have htake : (mid.toList ++ ('}' :: post.toList)).take (mid.toList.length + 1) =
        mid.toList ++ ['}'] := by
      rw [take_append_len mid.toList ('}' :: post.toList) 1]
      rfl
    rw [htake, mk_append_append]
  · intro rest
    rfl

-- Counterexample to C7 as stated: prose around a valid JSON object is
-- not tolerated on the grounded-explanation path: parse_llm_json
-- rejects it, while the extraction the spec describes (modelled by
-- parse_llm_json_asSpecified) would accept it.
unseal Rat.add Rat.mul Rat.inv Rat.sub in
theorem grounded_parse_prose_counterexample :
    parse_llm_json "Answer: \x7b\"a\": 1\x7d done" = none ∧
    parse_llm_json_asSpecified "Answer: \x7b\"a\": 1\x7d done" =
      some (Json.obj [("a", Json.num 1)]) :=
  ⟨rfl, rfl⟩

-- Witness for C7: the amended theorem applied to concrete prose.
theorem json_extraction_paths_witness :
    extract_json_object "Answer: \x7b\"a\": 1\x7d done" = some "\x7b\"a\": 1\x7d" ∧
    parse_llm_json "Answer: nothing here" = none := by
  constructor
  · exact json_extraction_paths.1 "Answer: " "\"a\": 1" " done" (by decide) (by decide)
  · exact json_extraction_paths.2 "nothing here"

/-
C8.
-/

theorem objGet_append_some (kvs l2 : List (String × Json)) (k : String) (v : Json)
    (h : objGet kvs k = some v) : objGet (kvs ++ l2) k = some v := by
  induction kvs with
  | nil => simp [objGet] at h
  | cons p ps ih =>
    rw [List.cons_append]
    simp only [objGet] at h ⊢
    by_cases hpk : (p.1 == k) = true
    · rw [if_pos hpk] at h ⊢
      exact h
    · rw [if_neg hpk] at h ⊢
      exact ih h

theorem objGet_append_none (kvs l2 : List (String × Json)) (k : String)
    (h : objGet kvs k = none) : objGet (kvs ++ l2) k = objGet l2 k := by
  induction kvs with
  | nil => rfl
  | cons p ps ih =>
    rw [List.cons_append]
    simp only [objGet] at h ⊢
    by_cases hpk : (p.1 == k) = true
    · rw [if_pos hpk] at h
      cases h
    · rw [if_neg hpk] at h ⊢
      exact ih h

theorem objGet_setdefault_preserve (kvs : List (String × Json)) (k k2 : String)
    (v d : Json) (h : objGet kvs k = some v) :
    objGet (setdefaultKV kvs k2 d) k = some v := by
  unfold setdefaultKV
  split
  · exact h
  · exact objGet_append_some kvs [(k2, d)] k v h

theorem objGet_setdefault_add (kvs : List (String × Json)) (k : String) (d : Json)
    (h : objGet kvs k = none) :
    objGet (setdefaultKV kvs k d) k = some d := by
  unfold setdefaultKV
  rw [if_neg (by rw [h]; simp)]
  rw [objGet_append_none kvs [(k, d)] k h]
  simp [objGet]

theorem objGet_setdefault_other (kvs : List (String × Json)) (k k2 : String) (d : Json)
    (hne : k ≠ k2) (h : objGet kvs k = none) :
    objGet (setdefaultKV kvs k2 d) k = none := by
  unfold setdefaultKV
  split
  · exact h
  · rw [objGet_append_none kvs [(k2, d)] k h]
    simp only [objGet]
    rw [if_neg (by
      simp only [beq_iff_eq]
      exact fun hc => hne hc.symm)]

theorem safeParseDefaults_preserve (kvs : List (String × Json)) (k : String) (v : Json)
    (h : objGet kvs k = some v) : objGet (safeParseDefaults kvs) k = some v := by
  unfold safeParseDefaults
  exact objGet_setdefault_preserve _ _ _ _ _
    (objGet_setdefault_preserve _ _ _ _ _
      (objGet_setdefault_preserve _ _ _ _ _
        (objGet_setdefault_preserve _ _ _ _ _ h)))

/-- C8: validation of the raw model text for the document-extraction
shape. Empty or non-string input, undecodable text, and a decoded
value that is not an object each produce the empty structured result
(whose fields and tables are empty and whose page confidence is
absent, per the last conjunct) together with exactly one warning
naming that failure mode; a decoded object produces no warning, and
each missing top-level key among fields, tables, page_confidence and
warnings is defaulted to empty or absent while present keys are kept
unchanged. -/
theorem safe_parse_json_spec (text : Option String) :
    (text = none ∨ text = some "" →
      safe_parse_json text = (emptyExtractionObj, ["Empty model output."])) ∧
    (∀ s, text = some s → s ≠ "" → jsonParse s = none →
      safe_parse_json text =
        (emptyExtractionObj, ["Model output is not valid JSON; using empty extraction."])) ∧
    (∀ s j, text = some s → s ≠ "" → jsonParse s = some j → (∀ kvs, j ≠ Json.obj kvs) →
      safe_parse_json text =
        (emptyExtractionObj, ["Model output JSON is not an object; using empty extraction."])) ∧
    (∀ s kvs, text = some s → s ≠ "" → jsonParse s = some (Json.obj kvs) →
      (safe_parse_json text).2 = [] ∧
      (safe_parse_json text).1 = Json.obj (safeParseDefaults kvs) ∧
      (∀ k v, objGet kvs k = some v → objGet (safeParseDefaults kvs) k = some v) ∧
      (objGet kvs "fields" = none →
        objGet (safeParseDefaults kvs) "fields" = some (Json.arr [])) ∧
      (objGet kvs "tables" = none →
        objGet (safeParseDefaults kvs) "tables" = some (Json.arr [])) ∧
      (objGet kvs "page_confidence" = none →
        objGet (safeParseDefaults kvs) "page_confidence" = some Json.null) ∧
      (objGet kvs "warnings" = none →
        objGet (safeParseDefaults kvs) "warnings" = some (Json.arr []))) ∧
    (∃ ekvs, emptyExtractionObj = Json.obj ekvs ∧
      objGet ekvs "fields" = some (Json.arr []) ∧
      objGet ekvs "tables" = some (Json.arr []) ∧
      objGet ekvs "page_confidence" = some Json.null ∧
      objGet ekvs "warnings" = some (Json.arr [])) := by
  refine ⟨?_, ?_, ?_, ?_, ?_⟩
  · rintro (rfl | rfl)
    · rfl
    · rfl
  · intro s hs hne hp
    subst hs
    simp only [safe_parse_json, if_neg hne, hp]
  · intro s j hs hne hp hno
    subst hs
    cases j with
    | obj kvs => exact absurd rfl (hno kvs)
    | null => simp only [safe_parse_json, if_neg hne, hp]
    | bool b => simp only [safe_parse_json, if_neg hne, hp]
    | num q => simp only [safe_parse_json, if_neg hne, hp]
    | str s2 => simp only [safe_parse_json, if_neg hne, hp]
    | arr xs => simp only [safe_parse_json, if_neg hne, hp]
  · intro s kvs hs hne hp
    subst hs
    have heq : safe_parse_json (some s) = (Json.obj (safeParseDefaults kvs), []) := by
      simp only [safe_parse_json, if_neg hne, hp]
    refine ⟨by rw [heq], by rw [heq],
      fun k v h => safeParseDefaults_preserve kvs k v h, ?_, ?_, ?_, ?_⟩
    · intro h
      unfold safeParseDefaults
      exact objGet_setdefault_preserve _ _ _ _ _
        (objGet_setdefault_preserve _ _ _ _ _
          (objGet_setdefault_preserve _ _ _ _ _
            (objGet_setdefault_add kvs "fields" (Json.arr []) h)))
    · intro h
      unfold safeParseDefaults
      exact objGet_setdefault_preserve _ _ _ _ _
        (objGet_setdefault_preserve _ _ _ _ _
          (objGet_setdefault_add _ "tables" (Json.arr [])
            (objGet_setdefault_other kvs "tables" "fields" (Json.arr [])
              (by decide) h)))
    · intro h
      unfold safeParseDefaults
      exact objGet_setdefault_preserve _ _ _ _ _
        (objGet_setdefault_add _ "page_confidence" Json.null
          (objGet_setdefault_other _ "page_confidence" "tables" (Json.arr [])
            (by decide)
            (objGet_setdefault_other kvs "page_confidence" "fields" (Json.arr [])
              (by decide) h)))
    · intro h
      unfold safeParseDefaults
      exact objGet_setdefault_add _ "warnings" (Json.arr [])
        (objGet_setdefault_other _ "warnings" "page_confidence" Json.null (by decide)
          (objGet_setdefault_other _ "warnings" "tables" (Json.arr []) (by decide)
            (objGet_setdefault_other kvs "warnings" "fields" (Json.arr [])
              (by decide) h)))
  · refine ⟨[("fields", Json.arr []), ("tables", Json.arr []),
      ("page_confidence", Json.null), ("warnings", Json.arr [])], rfl, rfl, rfl, rfl, rfl⟩

-- Witness for C8: the specification example NOT JSON yields the empty
-- structure and exactly the invalid-JSON warning.
theorem safe_parse_json_spec_witness :
    safe_parse_json (some "NOT JSON") =
      (emptyExtractionObj, ["Model output is not valid JSON; using empty extraction."]) :=
  (safe_parse_json_spec (some "NOT JSON")).2.1 "NOT JSON" rfl (by decide) rfl

end VIA
